import Mathlib

/-
Verification of the vector-field visualization engine:
FunctionParser.parse / splitComponents / extractVariables (src/index.js),
VectorField.evaluateAt / sampleGrid / integrateRK4 / addPosition / scaleVector,
ArrowMode.render / getMaxMagnitude, ParticleMode.update.

JavaScript numbers are modelled by exact rationals; the one aspect of IEEE
arithmetic the engine's validation logic depends on, finiteness, is kept
explicit in the type JSNum below.  JavaScript objects such as positions and
parameter bindings are modelled as association lists from keys to rationals.
-/

set_option maxHeartbeats 1000000

namespace Viz

/-- A JavaScript value sitting in a result array: either a finite number
(modelled exactly as a rational) or anything for which Number.isFinite is
false (NaN, plus or minus Infinity, or a non-number). -/
inductive JSNum where
  | fin (q : ℚ)
  | nonfinite
deriving DecidableEq, Repr

/-- Number.isFinite. -/
def JSNum.isFinite : JSNum → Bool
  | .fin _ => true
  | .nonfinite => false

/-- The rational carried by a finite JSNum (0 for the nonfinite marker; only
applied after a finiteness check in the code being modelled). -/
def JSNum.toQ : JSNum → ℚ
  | .fin q => q
  | .nonfinite => 0

/-- A JavaScript object with numeric values: ordered key/value pairs. -/
abbrev Obj := List (String × ℚ)

/-- Property lookup `o[k]`: first pair with the given key. -/
def getKey (o : Obj) (k : String) : Option ℚ :=
  (o.find? (fun p => p.1 == k)).map (·.2)

/-- Object spread `{...o1, ...o2}`: keys of o1 in order with values overridden
by o2 where present, then the keys of o2 not already in o1. -/
def spreadObj (o1 o2 : Obj) : Obj :=
  (o1.map (fun p =>
    match getKey o2 p.1 with
    | some v => (p.1, v)
    | none => p)) ++
  o2.filter (fun p => (getKey o1 p.1).isNone)

/-- Outcome of calling the compiled field function: it can throw, return a
non-array value (including null), or return an array of JS values. -/
inductive FuncResult where
  | throws
  | nonArray
  | arr (xs : List JSNum)

/-- The compiled field function: receives the position and the merged
parameter bindings. -/
abbrev FieldFunc := Obj → Obj → FuncResult

/-- Domain bounds: {min: {x, y, z?}, max: {x, y, z?}}, flattened per axis;
`zb` carries the optional z axis (min, max). -/
structure Bounds where
  xmin : ℚ
  xmax : ℚ
  ymin : ℚ
  ymax : ℚ
  zb : Option (ℚ × ℚ)

/-- VectorField.getDefaultBounds. -/
def getDefaultBounds (dimension : Nat) : Bounds :=
  if dimension = 2 then ⟨-10, 10, -10, 10, none⟩
  else ⟨-5, 5, -5, 5, some (-5, 5)⟩

/-- The VectorField engine: dimension, compiled function, bounds, stored
parameter bindings. -/
structure VectorField where
  dimension : Nat
  func : FieldFunc
  bounds : Bounds
  params : Obj

/-- new VectorField(dimension, func) with default bounds and empty params. -/
def mkVectorField (dimension : Nat) (func : FieldFunc) : VectorField :=
  ⟨dimension, func, getDefaultBounds dimension, []⟩

/-- The validation loop of evaluateAt: starting at index `i`, checks that the
next `fuel` entries of `result` are finite, returning false at the first
non-finite entry. -/
def checkFinite (result : List JSNum) : Nat → Nat → Bool
  | 0, _ => true
  | fuel + 1, i =>
    if (result.getD i JSNum.nonfinite).isFinite then checkFinite result fuel (i + 1)
    else false

/-- VectorField.evaluateAt: merge stored params with overrides, call the
compiled function, validate (array, length at least dimension, first
`dimension` entries finite), and truncate to `dimension` components.  Any
failure, including a throw from the function, yields the Invalid sentinel
(none). -/
def VectorField.evaluateAt (V : VectorField) (position : Obj) (params : Obj) :
    Option (List ℚ) :=
  match V.func position (spreadObj V.params params) with
  | .throws => none
  | .nonArray => none
  | .arr result =>
    if result.length < V.dimension then none
    else if checkFinite result V.dimension 0 then
      some ((result.take V.dimension).map JSNum.toQ)
    else none

theorem checkFinite_iff (result : List JSNum) :
    ∀ fuel i, checkFinite result fuel i = true ↔
      ∀ j, j < fuel → (result.getD (i + j) JSNum.nonfinite).isFinite = true := by
  intro fuel
  induction fuel with
  | zero => intro i; simp [checkFinite]
  | succ n ih =>
    intro i
    simp only [checkFinite]
    by_cases h : (result.getD i JSNum.nonfinite).isFinite = true
    · rw [if_pos h, ih (i + 1)]
      constructor
      · intro hall j hj
        cases j with
        | zero => simpa using h
        | succ k =>
          have := hall k (by omega)
          simpa [Nat.add_comm, Nat.add_assoc, Nat.add_left_comm] using this
      · intro hall j hj
        have := hall (j + 1) (by omega)
        simpa [Nat.add_comm, Nat.add_assoc, Nat.add_left_comm] using this
    · rw [if_neg h]
      constructor
      · intro hfalse; exact absurd hfalse (by simp)
      · intro hall
        exact absurd (by simpa using hall 0 (by omega)) h

/-- Claim C2: for every position and parameter binding, evaluateAt is total
(the embedding returns an Option, never an exception) and: it returns the
Invalid sentinel exactly when the compiled function throws, returns a
non-array, returns an array shorter than the dimension, or returns an array
with a non-finite value among its first `dimension` entries; otherwise it
returns exactly the first `dimension` components of the function's result. -/
theorem c2_evaluateAt_validation (V : VectorField) (position params : Obj) :
    (V.evaluateAt position params = none ↔
      (V.func position (spreadObj V.params params) = .throws ∨
       V.func position (spreadObj V.params params) = .nonArray ∨
       ∃ xs, V.func position (spreadObj V.params params) = .arr xs ∧
         (xs.length < V.dimension ∨
          ∃ i, i < V.dimension ∧ (xs.getD i JSNum.nonfinite).isFinite = false))) ∧
    (∀ xs, V.func position (spreadObj V.params params) = .arr xs →
      V.dimension ≤ xs.length →
      (∀ i, i < V.dimension → (xs.getD i JSNum.nonfinite).isFinite = true) →
      V.evaluateAt position params = some ((xs.take V.dimension).map JSNum.toQ)) := by
  constructor
  · unfold VectorField.evaluateAt
    cases hf : V.func position (spreadObj V.params params) with
    | throws => simp
    | nonArray => simp
    | arr xs =>
      simp only [FuncResult.arr.injEq, reduceCtorEq, false_or, exists_eq_left']
      by_cases hlen : xs.length < V.dimension
      · simp [hlen]
      · rw [if_neg hlen]
        by_cases hfin : checkFinite xs V.dimension 0 = true
        · rw [if_pos hfin]
          rw [checkFinite_iff] at hfin
          simp only [reduceCtorEq, false_iff, not_or, not_lt, not_exists, not_and]
          refine ⟨by omega, fun i hi => ?_⟩
          have := hfin i hi
          simp only [Nat.zero_add, List.getD, List.get?_eq_getElem?] at this
          simp [this]
        · rw [if_neg hfin]
          simp only [true_iff]
          right
          rw [checkFinite_iff] at hfin
          push_neg at hfin
          obtain ⟨j, hj, hnf⟩ := hfin
          exact ⟨j, hj, by simpa using hnf⟩
  · intro xs hf hlen hfin
    simp only [VectorField.evaluateAt, hf]
    rw [if_neg (by omega), if_pos]
    rw [checkFinite_iff]
    intro j hj
    simpa using hfin j hj

theorem c2_evaluateAt_validation_witness :
    (mkVectorField 2 (fun _ _ => .arr [.fin 3, .fin 4, .nonfinite])).evaluateAt
      [("x", 1), ("y", 0)] [] = some [3, 4] :=
  (c2_evaluateAt_validation
      (mkVectorField 2 (fun _ _ => .arr [.fin 3, .fin 4, .nonfinite]))
      [("x", 1), ("y", 0)] []).2
    [.fin 3, .fin 4, .nonfinite] rfl (by decide) (by decide)

/-! ## FunctionParser.splitComponents

JavaScript string primitives (trim, startsWith, endsWith, slice) are modelled
by structural functions on character lists so that everything evaluates inside
the kernel. -/

/-- JS String.prototype.trim. -/
def jsTrim (s : String) : String :=
  String.mk (((s.data.dropWhile Char.isWhitespace).reverse.dropWhile
    Char.isWhitespace).reverse)

/-- Does the character list start with the given character list? -/
def hasPrefixCL : List Char → List Char → Bool
  | _, [] => true
  | [], _ :: _ => false
  | c :: cs, p :: ps => c == p && hasPrefixCL cs ps

/-- JS s.startsWith(p). -/
def jsStartsWith (s p : String) : Bool := hasPrefixCL s.data p.data

/-- JS s.endsWith(p). -/
def jsEndsWith (s p : String) : Bool := hasPrefixCL s.data.reverse p.data.reverse

/-- JS s.slice(1, -1). -/
def jsSlice1m1 (s : String) : String := String.mk ((s.data.drop 1).dropLast)

def isOpenBracket (c : Char) : Bool := c == '(' || c == '[' || c == '{'

def isCloseBracket (c : Char) : Bool := c == ')' || c == ']' || c == '}'

/-- The loop of FunctionParser.splitComponents: walk the characters tracking
bracket depth; a comma at depth 0 pushes the accumulated component; at the
end the final component is pushed only when it is non-empty (the JS code
tests the string's truthiness). -/
def splitCompsAux : List Char → List Char → Int → List (List Char) → List (List Char)
  | [], current, _, acc => if current = [] then acc else acc ++ [current]
  | c :: rest, current, depth, acc =>
    if isOpenBracket c then splitCompsAux rest (current ++ [c]) (depth + 1) acc
    else if isCloseBracket c then splitCompsAux rest (current ++ [c]) (depth - 1) acc
    else if c == ',' && depth == 0 then splitCompsAux rest [] depth (acc ++ [current])
    else splitCompsAux rest (current ++ [c]) depth acc

/-- FunctionParser.splitComponents on a character list. -/
def splitComponentsL (content : List Char) : List (List Char) :=
  splitCompsAux content [] 0 []

/-- FunctionParser.splitComponents. -/
def splitComponents (content : String) : List String :=
  (splitComponentsL content.data).map String.mk

/-- Spec-side splitter: same state machine, but the final component is always
kept, even when empty.  Used to characterize splitComponents. -/
def splitAllAux : List Char → List Char → Int → List (List Char)
  | [], current, _ => [current]
  | c :: rest, current, depth =>
    if isOpenBracket c then splitAllAux rest (current ++ [c]) (depth + 1)
    else if isCloseBracket c then splitAllAux rest (current ++ [c]) (depth - 1)
    else if c == ',' && depth == 0 then current :: splitAllAux rest [] depth
    else splitAllAux rest (current ++ [c]) depth

/-- Rejoin components with commas. -/
def joinComma : List (List Char) → List Char
  | [] => []
  | [c] => c
  | c :: rest => c ++ ',' :: joinComma rest

/-- Number of commas occurring at bracket depth 0, starting from the given
depth. -/
def topCommas : List Char → Int → Nat
  | [], _ => 0
  | c :: rest, depth =>
    if isOpenBracket c then topCommas rest (depth + 1)
    else if isCloseBracket c then topCommas rest (depth - 1)
    else if c == ',' && depth == 0 then topCommas rest depth + 1
    else topCommas rest depth

/-- Drop a single trailing empty component, as splitComponents does. -/
def dropTrailingEmpty (l : List (List Char)) : List (List Char) :=
  if l.getLast? = some [] then l.dropLast else l

theorem splitAllAux_ne_nil (cs : List Char) :
    ∀ current depth, splitAllAux cs current depth ≠ [] := by
  induction cs with
  | nil => intro current depth; simp [splitAllAux]
  | cons c rest ih =>
    intro current depth
    simp only [splitAllAux]
    by_cases h1 : isOpenBracket c
    · simpa [h1] using ih _ _
    · by_cases h2 : isCloseBracket c
      · simpa [h1, h2] using ih _ _
      · by_cases h3 : (c == ',' && depth == 0)
        · simp [h1, h2, h3]
        · simpa [h1, h2, h3] using ih _ _

theorem joinComma_cons (x : List Char) (l : List (List Char)) (h : l ≠ []) :
    joinComma (x :: l) = x ++ ',' :: joinComma l := by
  cases l with
  | nil => exact absurd rfl h
  | cons y ys => rfl

theorem dropTrailingEmpty_cons (x : List Char) (l : List (List Char)) (h : l ≠ []) :
    dropTrailingEmpty (x :: l) = x :: dropTrailingEmpty l := by
  cases l with
  | nil => exact absurd rfl h
  | cons y ys =>
    simp only [dropTrailingEmpty, List.getLast?_cons_cons]
    split <;> simp

theorem joinComma_splitAllAux (cs : List Char) :
    ∀ current depth, joinComma (splitAllAux cs current depth) = current ++ cs := by
  induction cs with
  | nil => intro current depth; simp [splitAllAux, joinComma]
  | cons c rest ih =>
    intro current depth
    simp only [splitAllAux]
    by_cases h1 : isOpenBracket c
    · rw [if_pos h1, ih]
      simp
    · rw [if_neg h1]
      by_cases h2 : isCloseBracket c
      · rw [if_pos h2, ih]
        simp
      · rw [if_neg h2]
        by_cases h3 : (c == ',' && depth == 0)
        · rw [if_pos h3]
          rw [joinComma_cons _ _ (splitAllAux_ne_nil rest [] depth), ih]
          have hc : c = ',' := by
            have := (Bool.and_eq_true _ _).mp h3
            exact eq_of_beq this.1
          simp [hc]
        · rw [if_neg h3, ih]
          simp

theorem length_splitAllAux (cs : List Char) :
    ∀ current depth, (splitAllAux cs current depth).length = topCommas cs depth + 1 := by
  induction cs with
  | nil => intro current depth; simp [splitAllAux, topCommas]
  | cons c rest ih =>
    intro current depth
    simp only [splitAllAux, topCommas]
    by_cases h1 : isOpenBracket c
    · simp [h1, ih]
    · by_cases h2 : isCloseBracket c
      · simp [h1, h2, ih]
      · by_cases h3 : (c == ',' && depth == 0)
        · simp [h1, h2, h3, ih]
        · simp [h1, h2, h3, ih]

theorem splitCompsAux_eq (cs : List Char) :
    ∀ current depth acc, splitCompsAux cs current depth acc =
      acc ++ dropTrailingEmpty (splitAllAux cs current depth) := by
  induction cs with
  | nil =>
    intro current depth acc
    simp only [splitCompsAux, splitAllAux, dropTrailingEmpty]
    by_cases h : current = []
    · simp [h, List.getLast?]
    · simp [h, List.getLast?]
  | cons c rest ih =>
    intro current depth acc
    simp only [splitCompsAux, splitAllAux]
    by_cases h1 : isOpenBracket c
    · simp [h1, ih]
    · by_cases h2 : isCloseBracket c
      · simp [h1, h2, ih]
      · by_cases h3 : (c == ',' && depth == 0)
        · rw [if_neg h1, if_neg h2, if_pos h3, if_neg h1, if_neg h2, if_pos h3]
          rw [ih, dropTrailingEmpty_cons _ _ (splitAllAux_ne_nil rest [] depth)]
          simp
        · simp [h1, h2, h3, ih]

/-! ## FunctionParser.parse

math.js is an external library; its parser is abstracted as an oracle
`mparse : String → Except String MathNode` returning the AST node kinds that
FunctionParser.extractVariables traverses.  Concrete oracles are supplied for
the component strings of the concrete test expressions.  math.evaluate is
modelled by interpreting the AST returned by the same oracle. -/

inductive UnOp where
  | neg
  | plus
deriving DecidableEq

inductive BinOp where
  | add
  | sub
  | mul
  | div
deriving DecidableEq

mutual
/-- A math.js AST node, restricted to the node kinds that the engine's
variable-extraction walker inspects. -/
inductive MathNode where
  | symbolNode (name : String)
  | constantNode (value : ℚ)
  | operatorNode1 (op : UnOp) (arg : MathNode)
  | operatorNode2 (op : BinOp) (a b : MathNode)
  | parenthesisNode (content : MathNode)
  | functionNode (fn : String) (args : MathNodeArgs)
/-- Argument list of a FunctionNode. -/
inductive MathNodeArgs where
  | nil
  | cons (head : MathNode) (tail : MathNodeArgs)
end

mutual
/-- The traversal of FunctionParser.extractVariables: symbol names in
traversal order, with duplicates (the JS code inserts into a Set). -/
def traverseVars : MathNode → List String
  | .symbolNode n => [n]
  | .constantNode _ => []
  | .operatorNode1 _ a => traverseVars a
  | .operatorNode2 _ a b => traverseVars a ++ traverseVars b
  | .parenthesisNode c => traverseVars c
  | .functionNode _ args => traverseVarsArgs args
def traverseVarsArgs : MathNodeArgs → List String
  | .nil => []
  | .cons h t => traverseVars h ++ traverseVarsArgs t
end

/-- Insert into an insertion-ordered set (JS Set.add). -/
def addVar (l : List String) (v : String) : List String :=
  if v ∈ l then l else l ++ [v]

/-- FunctionParser.extractVariables: deduplicated symbol names in insertion
order. -/
def extractVariables (n : MathNode) : List String :=
  (traverseVars n).foldl addVar []

/-- JS unary minus on a value. -/
def jsNeg : JSNum → JSNum
  | .fin q => .fin (-q)
  | .nonfinite => .nonfinite

/-- JS binary arithmetic; division by zero produces a non-finite value, and
non-finite operands propagate. -/
def jsBin (op : BinOp) : JSNum → JSNum → JSNum
  | .fin a, .fin b =>
    match op with
    | .add => .fin (a + b)
    | .sub => .fin (a - b)
    | .mul => .fin (a * b)
    | .div => if b = 0 then .nonfinite else .fin (a / b)
  | _, _ => .nonfinite

mutual
/-- Interpreter for the modelled math.js AST: symbol lookup in the evaluation
scope, constants, unary and binary operators, parenthesised groups.  An
undefined symbol throws, as math.evaluate does; calls to library functions
are outside the modelled fragment and conservatively throw (no claim
exercises them). -/
def evalNode (scope : String → Option ℚ) : MathNode → Except Unit JSNum
  | .symbolNode n =>
    match scope n with
    | some q => .ok (.fin q)
    | none => .error ()
  | .constantNode v => .ok (.fin v)
  | .operatorNode1 op a => do
    let x ← evalNode scope a
    match op with
    | .neg => pure (jsNeg x)
    | .plus => pure x
  | .operatorNode2 op a b => do
    let x ← evalNode scope a
    let y ← evalNode scope b
    pure (jsBin op x y)
  | .parenthesisNode c => evalNode scope c
  | .functionNode _ args => evalNodeArgs scope args
def evalNodeArgs (_scope : String → Option ℚ) : MathNodeArgs → Except Unit JSNum
  | _ => .error ()
end

/-- The JS double Math.PI, exactly. -/
def piQ : ℚ := 884279719003555 / 281474976710656

/-- The JS double Math.E, exactly. -/
def eQ : ℚ := 6121026514868073 / 2251799813685248

/-- The evaluation scope built by the compiled function:
{...position, ...params, pi: Math.PI, e: Math.E}, as a lookup. -/
def scopeOf (position params : Obj) : String → Option ℚ := fun k =>
  if k == "pi" then some piQ
  else if k == "e" then some eQ
  else
    match getKey params k with
    | some v => some v
    | none => getKey position k

/-- math.evaluate(comp, scope), modelled as parsing with the oracle and
interpreting the AST. -/
def mevalOf (mparse : String → Except String MathNode) (comp : String)
    (scope : String → Option ℚ) : Except Unit JSNum :=
  match mparse comp with
  | .error _ => .error ()
  | .ok n => evalNode scope n

/-- The evaluation loop of the function created by parse: evaluate each
compiled component in the scope; any evaluation error makes the whole
function return null. -/
def evalComps (meval : String → (String → Option ℚ) → Except Unit JSNum) :
    List String → (String → Option ℚ) → Option (List JSNum)
  | [], _ => some []
  | c :: rest, scope =>
    match meval c scope with
    | .error _ => none
    | .ok v =>
      match evalComps meval rest scope with
      | none => none
      | some vs => some (v :: vs)

/-- The function returned by a successful parse: builds the scope from the
position, the parameters and the constants pi and e, evaluates every
component, and returns null (a non-array) when any component fails. -/
def mkFunc (meval : String → (String → Option ℚ) → Except Unit JSNum)
    (compiled : List String) : FieldFunc := fun position params =>
  match evalComps meval compiled (scopeOf position params) with
  | none => .nonArray
  | some vals => .arr vals

/-- Result record of FunctionParser.parse. -/
structure ParseResult where
  func : Option FieldFunc
  error : Option String
  varNames : List String

/-- The whitelist of coordinate names for a dimension. -/
def validVarsFor (dimension : Nat) : List String :=
  if dimension = 2 then ["x", "y"] else ["x", "y", "z"]

/-- Lexicographic comparison of character lists by code unit, as the default
Array.prototype.sort comparator does. -/
def strLtCL : List Char → List Char → Bool
  | [], [] => false
  | [], _ :: _ => true
  | _ :: _, [] => false
  | a :: as, b :: bs =>
    if a.val < b.val then true
    else if b.val < a.val then false
    else strLtCL as bs

def strLt (s t : String) : Bool := strLtCL s.data t.data

/-- Insert a string into a sorted list (models Array.prototype.sort on the
deduplicated variable names). -/
def insertStr (s : String) : List String → List String
  | [] => [s]
  | t :: ts => if strLt s t then s :: t :: ts else t :: insertStr s ts

def sortStrs (l : List String) : List String := l.foldr insertStr []

/-- The per-component loop of parse: math.parse each trimmed component,
collect its variables into the insertion-ordered set, and keep the trimmed
source text; a parse failure aborts with the component index, the message and
the variables collected so far. -/
def parseLoop (mparse : String → Except String MathNode) :
    List String → Nat → List String → List String →
    (String × List String) ⊕ (List String × List String)
  | [], _, vars, compiled => Sum.inr (vars, compiled)
  | comp :: rest, i, vars, compiled =>
    match mparse (jsTrim comp) with
    | .error e => Sum.inl ("Component " ++ toString i ++ ": " ++ e, vars)
    | .ok parsed =>
      parseLoop mparse rest (i + 1) ((extractVariables parsed).foldl addVar vars)
        (compiled ++ [jsTrim comp])

/-- FunctionParser.parse. -/
def parse (mparse : String → Except String MathNode) (expression : String)
    (dimension : Nat) : ParseResult :=
  let expr := jsTrim expression
  if !jsStartsWith expr "[" || !jsEndsWith expr "]" then
    { func := none,
      error := some "Function must be in array notation: [vx, vy] or [vx, vy, vz]",
      varNames := [] }
  else
    let content := jsSlice1m1 expr
    let components := splitComponents content
    if components.length ≠ dimension then
      { func := none,
        error := some ("Expected " ++ toString dimension ++ " components, got "
          ++ toString components.length),
        varNames := [] }
    else
      match parseLoop mparse components 0 [] [] with
      | Sum.inl (msg, vars) => { func := none, error := some msg, varNames := vars }
      | Sum.inr (vars, compiled) =>
        let validVars := validVarsFor dimension
        let invalidVars := vars.filter (fun v => !validVars.contains v)
        if invalidVars ≠ [] then
          { func := none,
            error := some ("Invalid variables: " ++ String.intercalate ", " invalidVars
              ++ ". Use " ++ String.intercalate ", " validVars),
            varNames := vars }
        else
          { func := some (mkFunc (mevalOf mparse) compiled), error := none,
            varNames := sortStrs vars }

/-- Bracket depth after consuming the characters, starting from the given
depth. -/
def netDepth : List Char → Int → Int
  | [], d => d
  | c :: rest, d =>
    if isOpenBracket c then netDepth rest (d + 1)
    else if isCloseBracket c then netDepth rest (d - 1)
    else netDepth rest d

/-- Claim C3: parse is total (the embedding returns a structured record,
never an exception); an expression that does not start with an opening and
end with a closing bracket yields the array-notation error with a null
evaluator; a component count different from the dimension yields the error
naming the expected and actual counts; and splitting happens exactly at the
commas seen at bracket depth 0: rejoining the components with commas
reconstructs the content, the component count (before the trailing-empty
drop) is one more than the number of depth-0 commas, and splitComponents
differs from that splitting only by the trailing-empty drop. -/
theorem c3_parse_structure :
    (∀ (mparse : String → Except String MathNode) (expression : String) (dimension : Nat),
      (!jsStartsWith (jsTrim expression) "[" || !jsEndsWith (jsTrim expression) "]") = true →
      parse mparse expression dimension =
        { func := none,
          error := some "Function must be in array notation: [vx, vy] or [vx, vy, vz]",
          varNames := [] }) ∧
    (∀ (mparse : String → Except String MathNode) (expression : String) (dimension : Nat),
      (!jsStartsWith (jsTrim expression) "[" || !jsEndsWith (jsTrim expression) "]") = false →
      (splitComponents (jsSlice1m1 (jsTrim expression))).length ≠ dimension →
      parse mparse expression dimension =
        { func := none,
          error := some ("Expected " ++ toString dimension ++ " components, got "
            ++ toString (splitComponents (jsSlice1m1 (jsTrim expression))).length),
          varNames := [] }) ∧
    (∀ content : List Char, joinComma (splitAllAux content [] 0) = content) ∧
    (∀ content : List Char,
      (splitAllAux content [] 0).length = topCommas content 0 + 1) ∧
    (∀ content : List Char,
      splitComponentsL content = dropTrailingEmpty (splitAllAux content [] 0)) := by
  refine ⟨?_, ?_, ?_, ?_, ?_⟩
  · intro mparse expression dimension h
    simp [parse, h]
  · intro mparse expression dimension h hne
    simp [parse, h, hne]
  · intro content
    simpa using joinComma_splitAllAux content [] 0
  · intro content
    exact length_splitAllAux content [] 0
  · intro content
    simpa using splitCompsAux_eq content [] 0 []

theorem c3_parse_structure_witness :
    parse (fun _ => .error "err") "x, y" 2 =
      { func := none,
        error := some "Function must be in array notation: [vx, vy] or [vx, vy, vz]",
        varNames := [] } ∧
    parse (fun _ => .error "err") "[x]" 2 =
      { func := none, error := some "Expected 2 components, got 1", varNames := [] } :=
  ⟨c3_parse_structure.1 (fun _ => .error "err") "x, y" 2 (by decide),
   c3_parse_structure.2.1 (fun _ => .error "err") "[x]" 2 (by decide) (by decide)⟩

theorem splitAllAux_cons_open (c : Char) (rest cur : List Char) (d : Int)
    (h : isOpenBracket c = true) :
    splitAllAux (c :: rest) cur d = splitAllAux rest (cur ++ [c]) (d + 1) := by
  simp [splitAllAux, h]

theorem splitAllAux_cons_close (c : Char) (rest cur : List Char) (d : Int)
    (h1 : isOpenBracket c = false) (h2 : isCloseBracket c = true) :
    splitAllAux (c :: rest) cur d = splitAllAux rest (cur ++ [c]) (d - 1) := by
  simp [splitAllAux, h1, h2]

theorem splitAllAux_cons_comma (c : Char) (rest cur : List Char) (d : Int)
    (h1 : isOpenBracket c = false) (h2 : isCloseBracket c = false)
    (h3 : (c == ',' && d == 0) = true) :
    splitAllAux (c :: rest) cur d = cur :: splitAllAux rest [] d := by
  simp [splitAllAux, h1, h2, h3]

theorem splitAllAux_cons_other (c : Char) (rest cur : List Char) (d : Int)
    (h1 : isOpenBracket c = false) (h2 : isCloseBracket c = false)
    (h3 : (c == ',' && d == 0) = false) :
    splitAllAux (c :: rest) cur d = splitAllAux rest (cur ++ [c]) d := by
  simp [splitAllAux, h1, h2, h3]

theorem netDepth_cons (c : Char) (rest : List Char) (d : Int) :
    netDepth (c :: rest) d =
      (if isOpenBracket c then netDepth rest (d + 1)
       else if isCloseBracket c then netDepth rest (d - 1)
       else netDepth rest d) := rfl

theorem splitAllAux_append (xs ys : List Char) :
    ∀ cur d, splitAllAux (xs ++ ys) cur d =
      (splitAllAux xs cur d).dropLast ++
        splitAllAux ys ((splitAllAux xs cur d).getLastD []) (netDepth xs d) := by
  induction xs with
  | nil =>
    intro cur d
    simp [splitAllAux, netDepth]
  | cons c rest ih =>
    intro cur d
    rw [List.cons_append]
    by_cases h1 : isOpenBracket c
    · rw [splitAllAux_cons_open c (rest ++ ys) cur d h1,
        splitAllAux_cons_open c rest cur d h1, netDepth_cons, if_pos h1, ih]
    · rw [Bool.not_eq_true] at h1
      by_cases h2 : isCloseBracket c
      · rw [splitAllAux_cons_close c (rest ++ ys) cur d h1 h2,
          splitAllAux_cons_close c rest cur d h1 h2, netDepth_cons,
          if_neg (by simp [h1]), if_pos h2, ih]
      · rw [Bool.not_eq_true] at h2
        by_cases h3 : (c == ',' && d == 0)
        · rw [splitAllAux_cons_comma c (rest ++ ys) cur d h1 h2 h3,
            splitAllAux_cons_comma c rest cur d h1 h2 h3, netDepth_cons,
            if_neg (by simp [h1]), if_neg (by simp [h2]), ih]
          have hne := splitAllAux_ne_nil rest [] d
          rw [List.dropLast_cons_of_ne_nil hne]
          cases hrest : splitAllAux rest [] d with
          | nil => exact absurd hrest hne
          | cons a l => simp
        · rw [Bool.not_eq_true] at h3
          rw [splitAllAux_cons_other c (rest ++ ys) cur d h1 h2 h3,
            splitAllAux_cons_other c rest cur d h1 h2 h3, netDepth_cons,
            if_neg (by simp [h1]), if_neg (by simp [h2]), ih]

/-- Claim C10: splitting the bracket content at top-level commas counts an
empty component occurring before a comma, but silently drops a trailing empty
component after a final top-level comma: for a component expression e (one
that splits to itself), "[e,]" yields one component while "[,e]" yields
two (the leading empty one and e); at the parse level, "[x,]" with
dimension 2 reports one component, not two. -/
theorem c10_trailing_component (e : List Char) (h1 : e ≠ [])
    (h2 : splitComponentsL e = [e]) :
    (splitComponentsL (e ++ [','])).length = 1 ∧
    splitComponentsL (',' :: e) = [[], e] ∧
    (∀ mparse, parse mparse "[x,]" 2 =
      { func := none, error := some "Expected 2 components, got 1", varNames := [] }) := by
  have hsplit : ∀ cs : List Char,
      splitComponentsL cs = dropTrailingEmpty (splitAllAux cs [] 0) := fun cs => by
    simpa using splitCompsAux_eq cs [] 0 []
  have hjoin : joinComma (splitAllAux e [] 0) = e := by
    simpa using joinComma_splitAllAux e [] 0
  have hdte : dropTrailingEmpty (splitAllAux e [] 0) = [e] := by
    rw [← hsplit]; exact h2
  have hL : splitAllAux e [] 0 = [e] := by
    by_cases hlast : (splitAllAux e [] 0).getLast? = some []
    · exfalso
      have hdecomp : (splitAllAux e [] 0).dropLast ++ [([] : List Char)] =
          splitAllAux e [] 0 :=
        List.dropLast_append_getLast? _ hlast
      have hdl : (splitAllAux e [] 0).dropLast = [e] := by
        rw [dropTrailingEmpty, if_pos hlast] at hdte
        exact hdte
      rw [hdl] at hdecomp
      rw [← hdecomp] at hjoin
      have hjc : joinComma ([e] ++ [([] : List Char)]) = e ++ [','] := by
        rw [List.singleton_append, joinComma_cons e [[]] (by simp)]
        rfl
      rw [hjc] at hjoin
      have := congrArg List.length hjoin
      simp at this
    · rw [dropTrailingEmpty, if_neg hlast] at hdte
      exact hdte
  refine ⟨?_, ?_, ?_⟩
  · rw [hsplit, splitAllAux_append e [','] [] 0, hL]
    have hdl1 : ([e] : List (List Char)).dropLast = [] := rfl
    have hgl1 : ([e] : List (List Char)).getLastD [] = e := rfl
    rw [hdl1, hgl1, List.nil_append]
    by_cases hD : ((',' == ',' && netDepth e 0 == 0)) = true
    · rw [splitAllAux_cons_comma ',' [] e (netDepth e 0) (by decide) (by decide) hD]
      simp [splitAllAux, dropTrailingEmpty]
    · rw [splitAllAux_cons_other ',' [] e (netDepth e 0) (by decide) (by decide)
        (by simpa using hD)]
      simp [splitAllAux, dropTrailingEmpty, h1]
  · rw [hsplit]
    have hcomma : splitAllAux (',' :: e) [] 0 = [] :: splitAllAux e [] 0 :=
      splitAllAux_cons_comma ',' e [] 0 (by decide) (by decide) (by decide)
    rw [hcomma, hL, dropTrailingEmpty]
    simp [h1]
  · intro mparse
    rfl

theorem c10_trailing_component_witness :
    (splitComponentsL (['x'] ++ [','])).length = 1 ∧
    splitComponentsL (',' :: ['x']) = [[], ['x']] :=
  ⟨(c10_trailing_component ['x'] (by decide) (by decide)).1,
   (c10_trailing_component ['x'] (by decide) (by decide)).2.1⟩

theorem mem_insertStr (v s : String) (l : List String) :
    v ∈ insertStr s l ↔ v = s ∨ v ∈ l := by
  induction l with
  | nil => simp [insertStr]
  | cons t ts ih =>
    simp only [insertStr]
    split
    · simp
    · simp only [List.mem_cons, ih]
      tauto

theorem mem_sortStrs (v : String) (l : List String) : v ∈ sortStrs l ↔ v ∈ l := by
  induction l with
  | nil => simp [sortStrs]
  | cons a as ih =>
    show v ∈ insertStr a (sortStrs as) ↔ _
    rw [mem_insertStr]
    simp [ih]

/-- math.js parse on the trimmed component strings of "[x+w, y]". -/
def mparseDemo : String → Except String MathNode := fun s =>
  if s = "x+w" then .ok (.operatorNode2 .add (.symbolNode "x") (.symbolNode "w"))
  else if s = "y" then .ok (.symbolNode "y")
  else .error "Unexpected expression"

/-- math.js parse on the trimmed component strings of "[-y, x]". -/
def mparseRot : String → Except String MathNode := fun s =>
  if s = "-y" then .ok (.operatorNode1 .neg (.symbolNode "y"))
  else if s = "x" then .ok (.symbolNode "x")
  else .error "Unexpected expression"

/-- Claim C4: parse enforces the strict variable policy: an expression only
compiles when every collected symbol is in the whitelist for the dimension
(x, y for dimension 2, otherwise x, y, z); when the components all parse but
some collected symbol is outside the whitelist, the result has a null
evaluator and the invalid-variable error naming exactly the offending
symbols; in particular parse("[x+w, y]", 2) fails with an error naming w. -/
theorem c4_variable_policy :
    (∀ (mparse : String → Except String MathNode) (expression : String) (dimension : Nat),
      (parse mparse expression dimension).func.isSome = true →
      ∀ v ∈ (parse mparse expression dimension).varNames, v ∈ validVarsFor dimension) ∧
    (∀ (mparse : String → Except String MathNode) (expression : String) (dimension : Nat)
      (vars compiled : List String),
      (!jsStartsWith (jsTrim expression) "[" || !jsEndsWith (jsTrim expression) "]") = false →
      (splitComponents (jsSlice1m1 (jsTrim expression))).length = dimension →
      parseLoop mparse (splitComponents (jsSlice1m1 (jsTrim expression))) 0 [] [] =
        Sum.inr (vars, compiled) →
      vars.filter (fun v => !(validVarsFor dimension).contains v) ≠ [] →
      (parse mparse expression dimension).func = none ∧
      (parse mparse expression dimension).error =
        some ("Invalid variables: " ++
          String.intercalate ", " (vars.filter (fun v => !(validVarsFor dimension).contains v))
          ++ ". Use " ++ String.intercalate ", " (validVarsFor dimension))) ∧
    parse mparseDemo "[x+w, y]" 2 =
      { func := none, error := some "Invalid variables: w. Use x, y",
        varNames := ["x", "w", "y"] } := by
  refine ⟨?_, ?_, ?_⟩
  · intro mparse expression dimension hsome v hv
    simp only [parse] at hsome hv
    split at hsome
    next hb => simp at hsome
    next hb =>
      split at hsome
      next hc => simp at hsome
      next hc =>
        split at hsome
        next msg vars hpl => simp at hsome
        next p vars compiled hpl =>
          split at hsome
          next hiv => simp at hsome
          next hiv =>
            rw [if_neg hb, if_neg hc] at hv
            simp only [hpl] at hv
            rw [if_neg hiv] at hv
            simp only [ParseResult.mk.injEq] at hv ⊢
            rw [mem_sortStrs] at hv
            have hfil : vars.filter (fun v => !(validVarsFor dimension).contains v) = [] :=
              not_ne_iff.mp hiv
            have := List.filter_eq_nil_iff.mp hfil v hv
            simpa using this
  · intro mparse expression dimension vars compiled hb hc hpl hne
    have hbranch : parse mparse expression dimension =
        { func := none,
          error := some ("Invalid variables: " ++
            String.intercalate ", "
              (vars.filter (fun v => !(validVarsFor dimension).contains v))
            ++ ". Use " ++ String.intercalate ", " (validVarsFor dimension)),
          varNames := vars } := by
      simp only [parse]
      rw [if_neg (by simp [hb]), if_neg (by simp [hc])]
      simp only [hpl]
      rw [if_pos hne]
    rw [hbranch]
    exact ⟨rfl, rfl⟩
  · rfl

theorem c4_variable_policy_witness : "x" ∈ validVarsFor 2 :=
  c4_variable_policy.1 mparseRot "[-y, x]" 2 rfl "x" (by decide)

/-- Claim C6: parse("[-y, x]", 2) succeeds with a non-null evaluator, reports
the variable list ["x", "y"] in sorted order, and the resulting VectorField
evaluates to [0, 1] at (1, 0) and to [-1, 0] at (0, 1). -/
theorem c6_rotation_field :
    (parse mparseRot "[-y, x]" 2).error = none ∧
    (parse mparseRot "[-y, x]" 2).varNames = ["x", "y"] ∧
    (parse mparseRot "[-y, x]" 2).func = some (mkFunc (mevalOf mparseRot) ["-y", "x"]) ∧
    (mkVectorField 2 (mkFunc (mevalOf mparseRot) ["-y", "x"])).evaluateAt
      [("x", 1), ("y", 0)] [] = some [0, 1] ∧
    (mkVectorField 2 (mkFunc (mevalOf mparseRot) ["-y", "x"])).evaluateAt
      [("x", 0), ("y", 1)] [] = some [-1, 0] := by
  refine ⟨rfl, rfl, rfl, ?_, ?_⟩ <;> decide

/-! ## VectorField.integrateRK4 -/

/-- VectorField.scaleVector: vec.map(v => v * scalar). -/
def scaleVector (vec : List ℚ) (scalar : ℚ) : List ℚ := vec.map (fun v => v * scalar)

/-- A JS array as the for...in loop of addPosition sees it: an object whose
enumerable keys are the decimal index strings "0", "1", .... -/
def arrayAsObj (xs : List ℚ) : Obj := xs.enum.map (fun p => (toString p.1, p.2))

/-- VectorField.addPosition: copy pos1; for every key of pos2 that pos1 also
has as own property, store the sum.  Keys of pos2 absent from pos1 are
dropped, keys of pos1 absent from pos2 pass through unchanged. -/
def addPosition (pos1 pos2 : Obj) : Obj :=
  pos1.map (fun p =>
    match getKey pos2 p.1 with
    | some w => (p.1, p.2 + w)
    | none => p)

/-- The RK4 weighted average:
k1.map((v, i) => (v + 2*k2[i] + 2*k3[i] + k4[i]) / 6). -/
def rk4Avg (k1 k2 k3 k4 : List ℚ) : List ℚ :=
  k1.enum.map (fun p =>
    (p.2 + 2 * k2.getD p.1 0 + 2 * k3.getD p.1 0 + k4.getD p.1 0) / 6)

/-- A stage offset of integrateRK4: addPosition(current, scaleVector(k, h)),
where the second argument is the JS array the code passes. -/
def stagePos (current : Obj) (k : List ℚ) (h : ℚ) : Obj :=
  addPosition current (arrayAsObj (scaleVector k h))

/-- One iteration of the integrateRK4 loop: the four stage evaluations with
early exit at the first Invalid, then the committed position. -/
def rk4Step (F : Obj → Option (List ℚ)) (dt : ℚ) (current : Obj) : Option Obj :=
  match F current with
  | none => none
  | some k1 =>
    match F (stagePos current k1 (dt / 2)) with
    | none => none
    | some k2 =>
      match F (stagePos current k2 (dt / 2)) with
      | none => none
      | some k3 =>
        match F (stagePos current k3 dt) with
        | none => none
        | some k4 => some (stagePos current (rk4Avg k1 k2 k3 k4) dt)

def rk4Loop (F : Obj → Option (List ℚ)) (dt : ℚ) : Obj → Nat → List Obj
  | _, 0 => []
  | current, n + 1 =>
    match rk4Step F dt current with
    | none => []
    | some c => c :: rk4Loop F dt c n

/-- VectorField.integrateRK4: the path starts at the seed and appends each
committed step. -/
def VectorField.integrateRK4 (V : VectorField) (startPos : Obj) (steps : Nat)
    (dt : ℚ) (params : Obj) : List Obj :=
  startPos :: rk4Loop (fun p => V.evaluateAt p params) dt startPos steps

/-- Some stage evaluation (k1, k2, k3 or k4) of the step at `current`
returns Invalid. -/
def stageFailure (F : Obj → Option (List ℚ)) (dt : ℚ) (current : Obj) : Prop :=
  F current = none ∨
  ∃ k1, F current = some k1 ∧
    (F (stagePos current k1 (dt / 2)) = none ∨
     ∃ k2, F (stagePos current k1 (dt / 2)) = some k2 ∧
       (F (stagePos current k2 (dt / 2)) = none ∨
        ∃ k3, F (stagePos current k2 (dt / 2)) = some k3 ∧
          F (stagePos current k3 dt) = none))

theorem rk4Step_none_iff (F : Obj → Option (List ℚ)) (dt : ℚ) (current : Obj) :
    rk4Step F dt current = none ↔ stageFailure F dt current := by
  unfold rk4Step stageFailure
  cases h1 : F current with
  | none => simp
  | some k1 =>
    simp only [Option.some.injEq, reduceCtorEq, false_or, exists_eq_left']
    cases h2 : F (stagePos current k1 (dt / 2)) with
    | none => simp
    | some k2 =>
      simp only [Option.some.injEq, reduceCtorEq, false_or, exists_eq_left']
      cases h3 : F (stagePos current k2 (dt / 2)) with
      | none => simp
      | some k3 =>
        simp only [Option.some.injEq, reduceCtorEq, false_or, exists_eq_left']
        cases h4 : F (stagePos current k3 dt) with
        | none => simp
        | some k4 => simp

theorem rk4Loop_length_le (F : Obj → Option (List ℚ)) (dt : ℚ) :
    ∀ n current, (rk4Loop F dt current n).length ≤ n := by
  intro n
  induction n with
  | zero => intro current; simp [rk4Loop]
  | succ m ih =>
    intro current
    cases hs : rk4Step F dt current with
    | none => simp [rk4Loop, hs]
    | some c =>
      simp only [rk4Loop, hs, List.length_cons]
      exact Nat.succ_le_succ (ih c)

theorem rk4Loop_chain (F : Obj → Option (List ℚ)) (dt : ℚ) :
    ∀ n current i, i + 1 < (current :: rk4Loop F dt current n).length →
      rk4Step F dt ((current :: rk4Loop F dt current n).getD i []) =
        some ((current :: rk4Loop F dt current n).getD (i + 1) []) := by
  intro n
  induction n with
  | zero => intro current i h; simp [rk4Loop] at h
  | succ m ih =>
    intro current i h
    cases hs : rk4Step F dt current with
    | none => rw [rk4Loop, hs] at h; simp at h
    | some c =>
      rw [rk4Loop, hs] at h ⊢
      cases i with
      | zero => simpa [List.getD] using hs
      | succ j =>
        have := ih c j (by simpa using h)
        simpa [List.getD] using this

theorem rk4Loop_last (F : Obj → Option (List ℚ)) (dt : ℚ) :
    ∀ n current, (current :: rk4Loop F dt current n).length < n + 1 →
      ∀ last, (current :: rk4Loop F dt current n).getLast? = some last →
        rk4Step F dt last = none := by
  intro n
  induction n with
  | zero => intro current h; simp [rk4Loop] at h
  | succ m ih =>
    intro current h last hl
    cases hs : rk4Step F dt current with
    | none =>
      rw [rk4Loop, hs] at hl
      simp only [List.getLast?_singleton, Option.some.injEq] at hl
      rw [← hl]
      exact hs
    | some c =>
      rw [rk4Loop, hs] at h hl
      rw [List.getLast?_cons_cons] at hl
      exact ih c (by simpa using h) last hl

/-- Claim C5: the path returned by integrateRK4 has the seed as first
element and length at most steps + 1; consecutive path entries are related
by a full successful RK4 step; and when the path is shorter than steps + 1,
the step at its last element has a stage evaluation that returned Invalid,
so the failed step is excluded and integration stopped there. -/
theorem c5_integrateRK4_path (V : VectorField) (startPos : Obj) (steps : Nat)
    (dt : ℚ) (params : Obj) :
    (V.integrateRK4 startPos steps dt params).head? = some startPos ∧
    (V.integrateRK4 startPos steps dt params).length ≤ steps + 1 ∧
    (∀ i, i + 1 < (V.integrateRK4 startPos steps dt params).length →
      rk4Step (fun p => V.evaluateAt p params) dt
          ((V.integrateRK4 startPos steps dt params).getD i []) =
        some ((V.integrateRK4 startPos steps dt params).getD (i + 1) [])) ∧
    ((V.integrateRK4 startPos steps dt params).length < steps + 1 →
      ∀ last, (V.integrateRK4 startPos steps dt params).getLast? = some last →
        stageFailure (fun p => V.evaluateAt p params) dt last) := by
  refine ⟨rfl, ?_, ?_, ?_⟩
  · show (startPos :: rk4Loop _ dt startPos steps).length ≤ steps + 1
    simpa using rk4Loop_length_le _ dt steps startPos
  · exact rk4Loop_chain _ dt steps startPos
  · intro hlen last hl
    rw [← rk4Step_none_iff]
    exact rk4Loop_last _ dt steps startPos hlen last hl

theorem c5_integrateRK4_path_witness :
    ((mkVectorField 2 (fun _ _ => .arr [.fin 1, .fin 0])).integrateRK4
        [("x", 0), ("y", 0)] 2 1 []).head? = some [("x", 0), ("y", 0)] ∧
    ((mkVectorField 2 (fun _ _ => .arr [.fin 1, .fin 0])).integrateRK4
        [("x", 0), ("y", 0)] 2 1 []).length ≤ 3 :=
  ⟨(c5_integrateRK4_path (mkVectorField 2 (fun _ _ => .arr [.fin 1, .fin 0]))
      [("x", 0), ("y", 0)] 2 1 []).1,
   (c5_integrateRK4_path (mkVectorField 2 (fun _ _ => .arr [.fin 1, .fin 0]))
      [("x", 0), ("y", 0)] 2 1 []).2.1⟩

/-- Claim C1 (code bug): integrateRK4 never advances the position.  The
second argument of addPosition is a JS array, whose enumerable keys are
"0", "1", ..., so hasOwnProperty never matches an axis key of the position
and every stage offset and the final advance are no-ops.  For the constant
field [1, 0] from seed (0, 0) with dt = 1, one step commits (0, 0) again,
while the claimed update dt * (k1 + 2*k2 + 2*k3 + k4) / 6 would move x to
0 + 1 * ((1 + 2*1 + 2*1 + 1) / 6) = 1. -/
theorem c1_integrateRK4_no_advance :
    (mkVectorField 2 (fun _ _ => .arr [.fin 1, .fin 0])).integrateRK4
        [("x", 0), ("y", 0)] 1 1 [] =
      [[("x", 0), ("y", 0)], [("x", 0), ("y", 0)]] ∧
    getKey (((mkVectorField 2 (fun _ _ => .arr [.fin 1, .fin 0])).integrateRK4
        [("x", 0), ("y", 0)] 1 1 []).getD 1 []) "x" = some 0 ∧
    (0 : ℚ) + 1 * (((1 : ℚ) + 2 * 1 + 2 * 1 + 1) / 6) = 1 ∧
    (0 : ℚ) < 1 := by
  refine ⟨by decide, by decide, by norm_num, by norm_num⟩

/-! ## VectorField.sampleGrid -/

/-- One grid coordinate: bounds.min + i * step with step = span / (resolution
- 1), exactly as the source computes it. -/
def gridCoord (lo hi : ℚ) (res : Nat) (i : Nat) : ℚ :=
  lo + (i : ℚ) * ((hi - lo) / ((res : ℚ) - 1))

/-- VectorField.sampleGrid: iterate the grid (x outer, then y, then z
innermost in the non-2D branch), evaluate at each point, and keep only the
points where evaluation succeeds.  The source reads bounds.min.z/max.z in
the non-2D branch; the engine's bounds define them for every 3-dimensional
field, and the getD default covers only that unreachable shape. -/
def VectorField.sampleGrid (V : VectorField) (resolution : Nat) (params : Obj) :
    List (Obj × List ℚ) :=
  if V.dimension = 2 then
    (List.range resolution).flatMap (fun i =>
      (List.range resolution).filterMap (fun j =>
        let x := gridCoord V.bounds.xmin V.bounds.xmax resolution i
        let y := gridCoord V.bounds.ymin V.bounds.ymax resolution j
        (V.evaluateAt [("x", x), ("y", y)] params).map
          (fun v => ([("x", x), ("y", y)], v))))
  else
    (List.range resolution).flatMap (fun i =>
      (List.range resolution).flatMap (fun j =>
        (List.range resolution).filterMap (fun k =>
          let x := gridCoord V.bounds.xmin V.bounds.xmax resolution i
          let y := gridCoord V.bounds.ymin V.bounds.ymax resolution j
          let z := gridCoord (V.bounds.zb.getD (0, 0)).1 (V.bounds.zb.getD (0, 0)).2
            resolution k
          (V.evaluateAt [("x", x), ("y", y), ("z", z)] params).map
            (fun v => ([("x", x), ("y", y), ("z", z)], v)))))

/-- Spec-side grid: the resolution^dimension evenly spaced positions spanning
the bounds, resolution points per axis (written from the specification, to
characterize sampleGrid against it). -/
def specGridPositions (V : VectorField) (resolution : Nat) : List Obj :=
  if V.dimension = 2 then
    (List.range resolution).flatMap (fun i =>
      (List.range resolution).map (fun j =>
        [("x", gridCoord V.bounds.xmin V.bounds.xmax resolution i),
         ("y", gridCoord V.bounds.ymin V.bounds.ymax resolution j)]))
  else
    (List.range resolution).flatMap (fun i =>
      (List.range resolution).flatMap (fun j =>
        (List.range resolution).map (fun k =>
          [("x", gridCoord V.bounds.xmin V.bounds.xmax resolution i),
           ("y", gridCoord V.bounds.ymin V.bounds.ymax resolution j),
           ("z", gridCoord (V.bounds.zb.getD (0, 0)).1 (V.bounds.zb.getD (0, 0)).2
             resolution k)])))

theorem length_flatMap_const {α β : Type} (l : List α) (f : α → List β) (n : Nat)
    (h : ∀ a ∈ l, (f a).length = n) : (l.flatMap f).length = l.length * n := by
  induction l with
  | nil => simp
  | cons a as ih =>
    simp only [List.flatMap_cons, List.length_append, List.length_cons]
    rw [h a (by simp), ih (fun b hb => h b (by simp [hb]))]
    ring

/-- Claim C7: sampleGrid equals the filtering of the full evenly spaced
resolution^dimension grid through evaluateAt, so grid points where
evaluation is Invalid are omitted and the result never exceeds
resolution^dimension pairs; the grid has resolution points per axis running
from the minimum bound (index 0) to the maximum bound (index resolution - 1)
inclusive. -/
theorem c7_sampleGrid (V : VectorField) (resolution : Nat) (params : Obj)
    (hres : 2 ≤ resolution) (hdim : V.dimension = 2 ∨ V.dimension = 3) :
    V.sampleGrid resolution params =
      (specGridPositions V resolution).filterMap
        (fun p => (V.evaluateAt p params).map (fun v => (p, v))) ∧
    (specGridPositions V resolution).length = resolution ^ V.dimension ∧
    (V.sampleGrid resolution params).length ≤ resolution ^ V.dimension ∧
    (∀ lo hi : ℚ, gridCoord lo hi resolution 0 = lo ∧
      gridCoord lo hi resolution (resolution - 1) = hi) := by
  have heq : V.sampleGrid resolution params =
      (specGridPositions V resolution).filterMap
        (fun p => (V.evaluateAt p params).map (fun v => (p, v))) := by
    unfold VectorField.sampleGrid specGridPositions
    by_cases h2 : V.dimension = 2
    · rw [if_pos h2, if_pos h2, List.filterMap_flatMap]
      refine List.flatMap_congr ?_
      intro i _
      rw [List.filterMap_map]
      rfl
    · rw [if_neg h2, if_neg h2, List.filterMap_flatMap]
      refine List.flatMap_congr ?_
      intro i _
      rw [List.filterMap_flatMap]
      refine List.flatMap_congr ?_
      intro j _
      rw [List.filterMap_map]
      rfl
  have hlen : (specGridPositions V resolution).length = resolution ^ V.dimension := by
    unfold specGridPositions
    rcases hdim with h2 | h3
    · rw [if_pos h2, h2]
      rw [length_flatMap_const _ _ resolution (fun a _ => by simp)]
      simp [pow_two]
    · rw [if_neg (by omega), h3]
      rw [length_flatMap_const _ _ (resolution * resolution) (fun a _ => by
        rw [length_flatMap_const _ _ resolution (fun b _ => by simp)]
        simp)]
      simp [List.length_range]
      ring
  refine ⟨heq, hlen, ?_, ?_⟩
  · rw [heq, ← hlen]
    exact List.length_filterMap_le _ _
  · intro lo hi
    have hne : ((resolution : ℚ) - 1) ≠ 0 := by
      have : (2 : ℚ) ≤ (resolution : ℚ) := by exact_mod_cast hres
      linarith
    constructor
    · simp [gridCoord]
    · unfold gridCoord
      have hcast : (((resolution - 1 : Nat)) : ℚ) = (resolution : ℚ) - 1 := by
        push_cast [Nat.cast_sub (by omega : 1 ≤ resolution)]
        ring
      rw [hcast]
      field_simp

theorem c7_sampleGrid_witness :
    (specGridPositions (mkVectorField 2 (fun _ _ => .arr [.fin 1, .fin 0])) 2).length =
      2 ^ (mkVectorField 2 (fun _ _ => .arr [.fin 1, .fin 0])).dimension ∧
    gridCoord 0 10 2 1 = 10 :=
  ⟨(c7_sampleGrid (mkVectorField 2 (fun _ _ => .arr [.fin 1, .fin 0])) 2 []
      (by norm_num) (Or.inl rfl)).2.1,
   ((c7_sampleGrid (mkVectorField 2 (fun _ _ => .arr [.fin 1, .fin 0])) 2 []
      (by norm_num) (Or.inl rfl)).2.2.2 0 10).2⟩

/-! ## ArrowMode -/

/-- The visualization-mode configuration fields the sampling policies read. -/
structure ModeConfig where
  scale : ℚ
  density : ℚ
  opacity : ℚ

/-- Sum of squares of a vector: vector.reduce((sum, v) => sum + v * v, 0). -/
def sumSq (v : List ℚ) : ℚ := v.foldl (fun s c => s + c * c) 0

/-- Math.ceil(resolution * config.density). -/
def resScaled (resolution : Nat) (cfg : ModeConfig) : Nat :=
  (⌈(resolution : ℚ) * cfg.density⌉).toNat

/-- The sample grid of ArrowMode.render: resolutionScaled points per axis
over the x/y bounds (i outer, j inner), z fixed to 0 when the dimension is
not 2. -/
def arrowGridSamples (V : VectorField) (rs : Nat) : List Obj :=
  (List.range rs).flatMap (fun i =>
    (List.range rs).map (fun j =>
      let x := gridCoord V.bounds.xmin V.bounds.xmax rs i
      let y := gridCoord V.bounds.ymin V.bounds.ymax rs j
      if V.dimension = 2 then [("x", x), ("y", y)]
      else [("x", x), ("y", y), ("z", 0)]))

/-- One fold step of ArrowMode.getMaxMagnitude; msqrt abstracts Math.sqrt. -/
def maxMagStep (msqrt : ℚ → ℚ) (V : VectorField) (mx : ℚ) (pos : Obj) : ℚ :=
  match V.evaluateAt pos [] with
  | none => mx
  | some v => max mx (msqrt (sumSq v))

/-- ArrowMode.getMaxMagnitude: the maximum magnitude over the samples where
evaluation succeeds, starting from 0. -/
def getMaxMagnitude (msqrt : ℚ → ℚ) (V : VectorField) (samples : List Obj) : ℚ :=
  samples.foldl (maxMagStep msqrt V) 0

/-- An arrow created by ArrowMode.render: position, display direction, and
the display length (the arrowLength the source computes). -/
structure Arrow where
  position : Obj
  dirx : ℚ
  diry : ℚ
  dirz : ℚ
  arrowLength : ℚ

/-- The render-loop body for one sample: skip Invalid evaluations, skip
magnitudes below the 1e-6 epsilon, otherwise normalize linearly against the
sampled maximum (1 standing in when that maximum is falsy) and clamp to
scale * 0.8. -/
def mkArrow (msqrt : ℚ → ℚ) (V : VectorField) (cfg : ModeConfig)
    (maxMagnitude : ℚ) (pos : Obj) : Option Arrow :=
  match V.evaluateAt pos [] with
  | none => none
  | some v =>
    let magnitude := msqrt (sumSq v)
    if magnitude < 1 / 1000000 then none
    else
      let displayScale := cfg.scale * (8 / 10)
      let arrowLength := min
        (displayScale * magnitude / (if maxMagnitude = 0 then 1 else maxMagnitude))
        displayScale
      some { position := pos,
             dirx := v.getD 0 0 * (arrowLength / magnitude),
             diry := v.getD 1 0 * (arrowLength / magnitude),
             dirz := v.getD 2 0 * (arrowLength / magnitude),
             arrowLength := arrowLength }

/-- ArrowMode.render: build the grid, compute the sampled maximum magnitude,
then create one arrow per displayable sample. -/
def renderArrows (msqrt : ℚ → ℚ) (V : VectorField) (cfg : ModeConfig)
    (resolution : Nat) : List Arrow :=
  (arrowGridSamples V (resScaled resolution cfg)).filterMap
    (mkArrow msqrt V cfg
      (getMaxMagnitude msqrt V (arrowGridSamples V (resScaled resolution cfg))))

theorem foldl_maxMagStep_init_le (msqrt : ℚ → ℚ) (V : VectorField) :
    ∀ (l : List Obj) (init : ℚ), init ≤ l.foldl (maxMagStep msqrt V) init := by
  intro l
  induction l with
  | nil => intro init; simp
  | cons p ps ih =>
    intro init
    simp only [List.foldl_cons]
    refine le_trans ?_ (ih (maxMagStep msqrt V init p))
    unfold maxMagStep
    cases V.evaluateAt p [] with
    | none => exact le_refl _
    | some v => exact le_max_left _ _

theorem mag_le_foldl_maxMagStep (msqrt : ℚ → ℚ) (V : VectorField) :
    ∀ (l : List Obj) (init : ℚ) (pos : Obj) (v : List ℚ),
      pos ∈ l → V.evaluateAt pos [] = some v →
      msqrt (sumSq v) ≤ l.foldl (maxMagStep msqrt V) init := by
  intro l
  induction l with
  | nil => intro init pos v h; simp at h
  | cons p ps ih =>
    intro init pos v hmem hev
    simp only [List.foldl_cons]
    rcases List.mem_cons.mp hmem with heq | hmem'
    · subst heq
      refine le_trans ?_ (foldl_maxMagStep_init_le msqrt V ps _)
      unfold maxMagStep
      rw [hev]
      exact le_max_right _ _
    · exact ih _ pos v hmem' hev

/-- Claim C8: every displayed arrow's length is
min(scale*0.8 * (magnitude/maxMagnitude), scale*0.8) where maxMagnitude is
the sampled maximum: no arrow's length exceeds scale*0.8; a displayable
sample whose magnitude equals maxMagnitude gets exactly length scale*0.8;
and every sample with magnitude below the 1e-6 epsilon is skipped. -/
theorem c8_arrow_normalization (msqrt : ℚ → ℚ) (V : VectorField)
    (cfg : ModeConfig) (resolution : Nat) :
    (∀ a ∈ renderArrows msqrt V cfg resolution,
      a.arrowLength ≤ cfg.scale * (8 / 10)) ∧
    (∀ pos ∈ arrowGridSamples V (resScaled resolution cfg), ∀ v : List ℚ,
      V.evaluateAt pos [] = some v →
      ¬ msqrt (sumSq v) < 1 / 1000000 →
      (mkArrow msqrt V cfg
          (getMaxMagnitude msqrt V (arrowGridSamples V (resScaled resolution cfg))) pos).map
          (fun a => a.arrowLength) =
        some (min
          (cfg.scale * (8 / 10) * (msqrt (sumSq v) /
            getMaxMagnitude msqrt V (arrowGridSamples V (resScaled resolution cfg))))
          (cfg.scale * (8 / 10)))) ∧
    (∀ pos ∈ arrowGridSamples V (resScaled resolution cfg), ∀ v : List ℚ,
      V.evaluateAt pos [] = some v →
      msqrt (sumSq v) =
        getMaxMagnitude msqrt V (arrowGridSamples V (resScaled resolution cfg)) →
      ¬ msqrt (sumSq v) < 1 / 1000000 →
      (mkArrow msqrt V cfg
          (getMaxMagnitude msqrt V (arrowGridSamples V (resScaled resolution cfg))) pos).map
          (fun a => a.arrowLength) =
        some (cfg.scale * (8 / 10))) ∧
    (∀ (pos : Obj) (v : List ℚ) (M : ℚ),
      V.evaluateAt pos [] = some v →
      msqrt (sumSq v) < 1 / 1000000 →
      mkArrow msqrt V cfg M pos = none) := by
  have hMnz : ∀ pos ∈ arrowGridSamples V (resScaled resolution cfg), ∀ v : List ℚ,
      V.evaluateAt pos [] = some v →
      ¬ msqrt (sumSq v) < 1 / 1000000 →
      getMaxMagnitude msqrt V (arrowGridSamples V (resScaled resolution cfg)) ≠ 0 := by
    intro pos hmem v hev hlt
    have h1 : (1 : ℚ) / 1000000 ≤ msqrt (sumSq v) := not_lt.mp hlt
    have h2 := mag_le_foldl_maxMagStep msqrt V _ 0 pos v hmem hev
    unfold getMaxMagnitude
    intro h0
    rw [h0] at h2
    linarith
  refine ⟨?_, ?_, ?_, ?_⟩
  · intro a ha
    unfold renderArrows at ha
    rw [List.mem_filterMap] at ha
    obtain ⟨pos, _, hmk⟩ := ha
    unfold mkArrow at hmk
    cases hev : V.evaluateAt pos [] with
    | none => rw [hev] at hmk; exact absurd hmk (by simp)
    | some v =>
      rw [hev] at hmk
      simp only at hmk
      split at hmk
      · exact absurd hmk (by simp)
      · have := Option.some.inj hmk
        rw [← this]
        exact min_le_right _ _
  · intro pos hmem v hev hlt
    have hne := hMnz pos hmem v hev hlt
    unfold mkArrow
    rw [hev]
    simp only
    rw [if_neg hlt]
    simp only [Option.map_some']
    congr 1
    rw [if_neg hne, mul_div_assoc]
  · intro pos hmem v hev hM hlt
    have hne := hMnz pos hmem v hev hlt
    unfold mkArrow
    rw [hev]
    simp only
    rw [if_neg hlt]
    simp only [Option.map_some']
    congr 1
    rw [if_neg hne, hM, mul_div_assoc, div_self hne, mul_one, min_self]
  · intro pos v M hev hlt
    unfold mkArrow
    rw [hev]
    simp only
    rw [if_pos hlt]

theorem c8_arrow_normalization_witness :
    (mkArrow (fun q => q) (mkVectorField 2 (fun _ _ => .arr [.fin 3, .fin 4]))
        ⟨1, 1, 1⟩
        (getMaxMagnitude (fun q => q)
          (mkVectorField 2 (fun _ _ => .arr [.fin 3, .fin 4]))
          (arrowGridSamples (mkVectorField 2 (fun _ _ => .arr [.fin 3, .fin 4]))
            (resScaled 1 ⟨1, 1, 1⟩)))
        [("x", -10), ("y", -10)]).map (fun a => a.arrowLength) =
      some ((1 : ℚ) * (8 / 10)) :=
  (c8_arrow_normalization (fun q => q)
      (mkVectorField 2 (fun _ _ => .arr [.fin 3, .fin 4])) ⟨1, 1, 1⟩ 1).2.2.1
    [("x", -10), ("y", -10)]
    (by
      norm_num [arrowGridSamples, resScaled, gridCoord, mkVectorField, getDefaultBounds,
        Int.toNat_one])
    [3, 4] rfl
    (by
      have hrs : resScaled 1 ⟨1, 1, 1⟩ = 1 := by
        unfold resScaled
        norm_num
      rw [hrs]
      have hM : getMaxMagnitude (fun q : ℚ => q)
          (mkVectorField 2 (fun _ _ => .arr [.fin 3, .fin 4]))
          (arrowGridSamples (mkVectorField 2 (fun _ _ => .arr [.fin 3, .fin 4])) 1) =
          max 0 (sumSq [3, 4]) := rfl
      rw [hM]
      have h0 : (0 : ℚ) ≤ sumSq [3, 4] := by norm_num [sumSq]
      exact (max_eq_right h0).symm)
    (by norm_num [sumSq])

/-! ## ParticleMode -/

/-- A particle position: ParticleMode always creates particles with x, y and
z fields (z defaulting to 0 for a 2-D field). -/
structure Pt3 where
  x : ℚ
  y : ℚ
  z : ℚ

/-- The particle position as the object handed to evaluateAt. -/
def posObj (p : Pt3) : Obj := [("x", p.x), ("y", p.y), ("z", p.z)]

/-- The two sequential wrap conditionals of ParticleMode.update for one axis:
a coordinate past the maximum is set to the minimum, then a coordinate below
the minimum is set to the maximum. -/
def wrapAxis (lo hi c : ℚ) : ℚ :=
  let c1 := if c > hi then lo else c
  if c1 < lo then hi else c1

/-- One tick of ParticleMode.update for one particle: evaluate the field at
the particle's position; when the result is valid and has positive magnitude,
advance each coordinate by vector[i] * deltaTime * speed * 0.1 (z only when
the vector has a third entry), then wrap x and y, and wrap z only when the
bounds define a z axis; msqrt abstracts Math.sqrt. -/
def particleStep (msqrt : ℚ → ℚ) (evalAt : Obj → Option (List ℚ)) (b : Bounds)
    (deltaTime : ℚ) (p : Pt3) : Pt3 :=
  match evalAt (posObj p) with
  | none => p
  | some vector =>
    let speed : ℚ := 1
    let magnitude := msqrt (sumSq vector)
    if magnitude > 0 then
      let px := p.x + vector.getD 0 0 * deltaTime * speed * (1 / 10)
      let py := p.y + vector.getD 1 0 * deltaTime * speed * (1 / 10)
      let pz := if 2 < vector.length then
          p.z + vector.getD 2 0 * deltaTime * speed * (1 / 10)
        else p.z
      let wx := wrapAxis b.xmin b.xmax px
      let wy := wrapAxis b.ymin b.ymax py
      match b.zb with
      | some zb => ⟨wx, wy, wrapAxis zb.1 zb.2 pz⟩
      | none => ⟨wx, wy, pz⟩
    else p

theorem wrapAxis_mem (lo hi c : ℚ) (h : lo ≤ hi) :
    lo ≤ wrapAxis lo hi c ∧ wrapAxis lo hi c ≤ hi := by
  unfold wrapAxis
  by_cases h1 : c > hi
  · rw [if_pos h1, if_neg (by linarith)]
    exact ⟨le_refl _, h⟩
  · rw [if_neg h1]
    by_cases h2 : c < lo
    · rw [if_pos h2]
      exact ⟨h, le_refl _⟩
    · rw [if_neg h2]
      exact ⟨not_lt.mp h2, not_lt.mp h1⟩

/-- Claim C9: the in-bounds invariant of ParticleMode.update: a particle
inside the bounds box before the tick is still inside after it, on every
axis the bounds define; a coordinate advanced past one bound is set to the
opposite bound of that axis (each axis independently), and z is wrapped only
when the bounds define a z axis. -/
theorem c9_particle_bounds (msqrt : ℚ → ℚ) (evalAt : Obj → Option (List ℚ))
    (b : Bounds) (deltaTime : ℚ) (p : Pt3)
    (hx : b.xmin ≤ p.x ∧ p.x ≤ b.xmax)
    (hy : b.ymin ≤ p.y ∧ p.y ≤ b.ymax)
    (hz : ∀ zlo zhi : ℚ, b.zb = some (zlo, zhi) → zlo ≤ p.z ∧ p.z ≤ zhi) :
    (b.xmin ≤ (particleStep msqrt evalAt b deltaTime p).x ∧
      (particleStep msqrt evalAt b deltaTime p).x ≤ b.xmax) ∧
    (b.ymin ≤ (particleStep msqrt evalAt b deltaTime p).y ∧
      (particleStep msqrt evalAt b deltaTime p).y ≤ b.ymax) ∧
    (∀ zlo zhi : ℚ, b.zb = some (zlo, zhi) →
      zlo ≤ (particleStep msqrt evalAt b deltaTime p).z ∧
      (particleStep msqrt evalAt b deltaTime p).z ≤ zhi) ∧
    (∀ lo hi c : ℚ, lo ≤ hi →
      (hi < c → wrapAxis lo hi c = lo) ∧ (c < lo → wrapAxis lo hi c = hi)) := by
  have hwrap : ∀ lo hi c : ℚ, lo ≤ hi →
      (hi < c → wrapAxis lo hi c = lo) ∧ (c < lo → wrapAxis lo hi c = hi) := by
    intro lo hi c h
    constructor
    · intro hgt
      unfold wrapAxis
      rw [if_pos hgt, if_neg (by linarith)]
    · intro hlt
      unfold wrapAxis
      have h1 : ¬ c > hi := by linarith
      rw [if_neg h1, if_pos hlt]
  have hxy : b.xmin ≤ b.xmax := le_trans hx.1 hx.2
  have hyy : b.ymin ≤ b.ymax := le_trans hy.1 hy.2
  unfold particleStep
  cases hev : evalAt (posObj p) with
  | none => exact ⟨hx, hy, hz, hwrap⟩
  | some vector =>
    simp only
    by_cases hmag : msqrt (sumSq vector) > 0
    · rw [if_pos hmag]
      cases hzb : b.zb with
      | none =>
        refine ⟨wrapAxis_mem _ _ _ hxy, wrapAxis_mem _ _ _ hyy, ?_, hwrap⟩
        intro zlo zhi hzeq
        exact absurd hzeq (by simp)
      | some zb =>
        refine ⟨wrapAxis_mem _ _ _ hxy, wrapAxis_mem _ _ _ hyy, ?_, hwrap⟩
        intro zlo zhi hzeq
        have hzz := hz zlo zhi (by rw [hzb]; exact hzeq)
        have hzp : zb = (zlo, zhi) := Option.some.inj hzeq
        subst hzp
        exact wrapAxis_mem _ _ _ (le_trans hzz.1 hzz.2)
    · rw [if_neg hmag]
      exact ⟨hx, hy, hz, hwrap⟩

theorem c9_particle_bounds_witness :
    ((-10 : ℚ) ≤ (particleStep (fun q => q) (fun _ => some [5, 0]) ⟨-10, 10, -10, 10, none⟩
        1 ⟨9, 0, 0⟩).x ∧
      (particleStep (fun q => q) (fun _ => some [5, 0]) ⟨-10, 10, -10, 10, none⟩
        1 ⟨9, 0, 0⟩).x ≤ 10) ∧
    ((-10 : ℚ) ≤ (particleStep (fun q => q) (fun _ => some [5, 0]) ⟨-10, 10, -10, 10, none⟩
        1 ⟨9, 0, 0⟩).y ∧
      (particleStep (fun q => q) (fun _ => some [5, 0]) ⟨-10, 10, -10, 10, none⟩
        1 ⟨9, 0, 0⟩).y ≤ 10) :=
  ⟨(c9_particle_bounds (fun q => q) (fun _ => some [5, 0]) ⟨-10, 10, -10, 10, none⟩
      1 ⟨9, 0, 0⟩ (by norm_num) (by norm_num) (by simp)).1,
   (c9_particle_bounds (fun q => q) (fun _ => some [5, 0]) ⟨-10, 10, -10, 10, none⟩
      1 ⟨9, 0, 0⟩ (by norm_num) (by norm_num) (by simp)).2.1⟩

end Viz
